import Mathlib

/-!
Verification of the coordinate-projection algorithm (`generate_annotations`)
and the stateful report renderer (`CombinedLines`, ruler header) of the
align-cli repository, shallowly embedded from `src/generate_annotations.rs`
and `src/render.rs`.

External-crate types are abstracted as follows: `Region` and `Annotation`
(from mzcore) are used by the core only through equality and display, so both
are modelled by their display name (`String`); `Allele` (from imgt) is
modelled by the two fields the core reads, `regions` and `annotations`;
`Alignment` (from mzalign) by the three accessors the core calls,
`start_a`, `start_b` and `path`.
-/

namespace AlignCli

/-- `MatchType` of the mzalign crate, as consumed by this repository. -/
inductive MatchType where
  | FullIdentity
  | IdentityMassMismatch
  | Isobaric
  | Mismatch
  | Gap
deriving DecidableEq, Repr

/-- One edit-operation unit of an alignment path (`Piece` of mzalign). -/
structure Piece where
  score : Int
  local_score : Int
  match_type : MatchType
  step_a : Nat
  step_b : Nat
deriving DecidableEq, Repr

/-- The two fields of an imgt `Allele` read by `generate_annotations`:
its region table (name, length pairs) and its point-annotation table
(name, reference position pairs). -/
structure Allele where
  regions : List (String × Nat)
  annotations : List (String × Nat)
deriving DecidableEq, Repr

/-- The three accessors of an mzalign `Alignment` the projector calls. -/
structure Alignment where
  start_a : Nat
  start_b : Nat
  path : List Piece
deriving DecidableEq, Repr

/-- The synthetic leading step of `generate_annotations.rs` lines 36-42:
`Piece { score: 0, local_score: 0, match_type: FullIdentity, step_a: start_a, step_b: start_b }`. -/
def leadPiece (al : Alignment) : Piece :=
  ⟨0, 0, MatchType.FullIdentity, al.start_a, al.start_b⟩

/-- The combined boundary queue of `generate_annotations.rs` lines 11-20:
per segment an optional unnamed `(None, start_a)` entry when `start_b != 0`,
then the allele's own region table; the whole list reversed so the walk can
pop from the end. -/
def buildARegions (alignments : List (Allele × Alignment)) :
    List (Option String × Nat) :=
  (alignments.flatMap (fun aal =>
    (if aal.2.start_b ≠ 0 then [((none : Option String), aal.2.start_a)] else [])
      ++ aal.1.regions.map (fun rl => (some rl.1, rl.2)))).reverse

/-- The flattened walk of `generate_annotations.rs` lines 29-50: per segment,
the synthetic lead-in piece when `start_b != 0` followed by the real path,
each piece tagged with its segment index. -/
def walkSteps (alignments : List (Allele × Alignment)) : List (Nat × Piece) :=
  (alignments.enum.flatMap (fun ial =>
    ((if ial.2.2.start_b ≠ 0 then [leadPiece ial.2.2] else []) ++ ial.2.2.path).map
      (fun p => (ial.1, p))))

/-- `r.clone().or(last_region).unwrap_or(Region::Other("Unknown"))`
(`generate_annotations.rs` lines 62-65 and 93-96). -/
def resolveRegion (r last : Option String) : String :=
  (r.or last).getD "Unknown"

/-- The merge-or-append rule of `generate_annotations.rs` lines 66-70:
if the last emitted region has the same name, extend its length by `lb`,
else push a new `(region, lb)` entry. -/
def mergeOrAppend (regions : List (String × Nat)) (region : String) (lb : Nat) :
    List (String × Nat) :=
  match regions.getLast? with
  | some rl =>
      if rl.1 = region then regions.dropLast ++ [(rl.1, rl.2 + lb)]
      else regions ++ [(region, lb)]
  | none => regions ++ [(region, lb)]

/-- The mutable state of the walk in `generate_annotations.rs` lines 22-28,
together with the two output vectors. -/
structure GAState where
  a_regions : List (Option String × Nat)
  index_a : Nat
  index_b : Nat
  len_a : Nat
  len_b : Nat
  offset_a : Nat
  last_region : Option String
  last_index : Option Nat
  regions : List (String × Nat)
  annotations : List (String × Nat)
deriving DecidableEq, Repr

/-- One iteration of the walk loop, `generate_annotations.rs` lines 50-89:
snapshot `offset_a` on a segment change, advance the four counters, process
at most one queued boundary (`if let`, lines 59-75), then, only for
`FullIdentity` / `IdentityMassMismatch` steps, emit every allele point
whose position equals `index_a - offset_a + step_a` at query position
`index_b + step_b` (lines 79-88). -/
def gaStep (alleles : List Allele) (st : GAState) (ip : Nat × Piece) : GAState :=
  let index := ip.1
  let path := ip.2
  let st1 : GAState :=
    { st with
      offset_a := if st.last_index ≠ some index then st.index_a else st.offset_a,
      index_a := st.index_a + path.step_a,
      index_b := st.index_b + path.step_b,
      len_a := st.len_a + path.step_a,
      len_b := st.len_b + path.step_b,
      last_index := some index }
  let st2 : GAState :=
    match st1.a_regions.getLast? with
    | some rl =>
        if rl.2 ≤ st1.len_a then
          { st1 with
            regions := mergeOrAppend st1.regions (resolveRegion rl.1 st1.last_region) st1.len_b,
            last_region := rl.1,
            a_regions := st1.a_regions.dropLast,
            len_a := st1.len_a - rl.2,
            len_b := 0 }
        else st1
    | none => st1
  if path.match_type = MatchType.FullIdentity ∨
      path.match_type = MatchType.IdentityMassMismatch then
    { st2 with
      annotations := st2.annotations ++
        ((alleles.getD index ⟨[], []⟩).annotations.filterMap
          (fun x => if st2.index_a - st2.offset_a + path.step_a = x.2
                    then some (x.1, st2.index_b + path.step_b) else none)) }
  else st2

/-- The initial walk state (`generate_annotations.rs` lines 22-28). -/
def gaInit (q : List (Option String × Nat)) : GAState :=
  ⟨q, 0, 0, 0, 0, 0, none, none, [], []⟩

/-- The walk state after the whole flattened walk. -/
def gaFinal (alignments : List (Allele × Alignment)) : GAState :=
  (walkSteps alignments).foldl (gaStep (alignments.map Prod.fst))
    (gaInit (buildARegions alignments))

/-- The post-walk flush of `generate_annotations.rs` lines 92-102: if a
boundary is still queued, attribute the remaining `len_b` to its resolved
region with the same merge-or-append rule; otherwise leave the list as is. -/
def finalRegions (st : GAState) : List (String × Nat) :=
  match st.a_regions.getLast? with
  | some rl => mergeOrAppend st.regions (resolveRegion rl.1 st.last_region) st.len_b
  | none => st.regions

/-- `generate_annotations` of `src/generate_annotations.rs` lines 5-105. -/
def generate_annotations (alignments : List (Allele × Alignment)) :
    List (String × Nat) × List (String × Nat) :=
  (finalRegions (gaFinal alignments), (gaFinal alignments).annotations)

/-- The query's total aligned length in the sense of claim C2: the sum of all
`step_b` over the effective walk, i.e. over all segments' paths together with
the synthesized lead-in steps (whose `step_b` is `start_b`) of segments whose
alignment does not start at query position 0. -/
def totalQueryLength (alignments : List (Allele × Alignment)) : Nat :=
  ((walkSteps alignments).map (fun ip => ip.2.step_b)).sum

/-- The sum of the lengths in an emitted region list. -/
def sumLens (l : List (String × Nat)) : Nat := (l.map Prod.snd).sum

/- ## Generic fold helpers -/

theorem foldl_induction {σ α : Type _} (f : σ → α → σ) (P : σ → Prop)
    (l : List α) (s : σ) (hs : P s) (h : ∀ s a, a ∈ l → P s → P (f s a)) :
    P (l.foldl f s) := by
  induction l generalizing s with
  | nil => exact hs
  | cons a t ih =>
      exact ih (f s a) (h s a (by simp) hs) (fun s b hb hP => h s b (by simp [hb]) hP)

theorem foldl_rel {σ τ α : Type _} (f : σ → α → σ) (g : τ → α → τ)
    (R : σ → τ → Prop) (h : ∀ s t a, R s t → R (f s a) (g t a))
    (l : List α) (s : σ) (t : τ) (hst : R s t) :
    R (l.foldl f s) (l.foldl g t) := by
  induction l generalizing s t with
  | nil => exact hst
  | cons a u ih => exact ih (f s a) (g t a) (h s t a hst)

/- ## Projections of one walk iteration -/

theorem gaStep_index_a (alleles : List Allele) (st : GAState) (ip : Nat × Piece) :
    (gaStep alleles st ip).index_a = st.index_a + ip.2.step_a := by
  simp only [gaStep]
  repeat' split
  all_goals rfl

theorem gaStep_index_b (alleles : List Allele) (st : GAState) (ip : Nat × Piece) :
    (gaStep alleles st ip).index_b = st.index_b + ip.2.step_b := by
  simp only [gaStep]
  repeat' split
  all_goals rfl

theorem gaStep_offset_a (alleles : List Allele) (st : GAState) (ip : Nat × Piece) :
    (gaStep alleles st ip).offset_a =
      if st.last_index ≠ some ip.1 then st.index_a else st.offset_a := by
  simp only [gaStep]
  repeat' split
  all_goals rfl

theorem gaStep_last_index (alleles : List Allele) (st : GAState) (ip : Nat × Piece) :
    (gaStep alleles st ip).last_index = some ip.1 := by
  simp only [gaStep]
  repeat' split
  all_goals rfl

theorem gaStep_annotations (alleles : List Allele) (st : GAState) (ip : Nat × Piece) :
    (gaStep alleles st ip).annotations =
      (if ip.2.match_type = MatchType.FullIdentity ∨
          ip.2.match_type = MatchType.IdentityMassMismatch then
        st.annotations ++
          ((alleles.getD ip.1 ⟨[], []⟩).annotations.filterMap
            (fun x => if st.index_a + ip.2.step_a -
                  (if st.last_index ≠ some ip.1 then st.index_a else st.offset_a)
                  + ip.2.step_a = x.2
              then some (x.1, st.index_b + ip.2.step_b + ip.2.step_b) else none))
      else st.annotations) := by
  simp only [gaStep]
  repeat' split
  all_goals rfl

/- ## mergeOrAppend bookkeeping -/

theorem sumLens_append (l m : List (String × Nat)) :
    sumLens (l ++ m) = sumLens l + sumLens m := by
  simp [sumLens]

theorem sumLens_mergeOrAppend (l : List (String × Nat)) (region : String) (lb : Nat) :
    sumLens (mergeOrAppend l region lb) = sumLens l + lb := by
  rcases List.eq_nil_or_concat l with rfl | ⟨l', x, rfl⟩
  · simp [mergeOrAppend, sumLens]
  · simp only [List.concat_eq_append, mergeOrAppend, List.getLast?_concat,
      List.dropLast_concat]
    split <;> simp [sumLens] <;> omega

/- ## Walk invariants for length conservation (C2) -/

theorem gaStep_sum_invariant (alleles : List Allele) (st : GAState) (ip : Nat × Piece)
    (h : sumLens st.regions + st.len_b = st.index_b) :
    sumLens (gaStep alleles st ip).regions + (gaStep alleles st ip).len_b =
      (gaStep alleles st ip).index_b := by
  simp only [gaStep]
  repeat' split
  all_goals simp_all [sumLens_mergeOrAppend]
  all_goals omega

theorem gaFinal_sum_invariant (alignments : List (Allele × Alignment)) :
    sumLens (gaFinal alignments).regions + (gaFinal alignments).len_b =
      (gaFinal alignments).index_b := by
  unfold gaFinal
  exact foldl_induction _ (fun st => sumLens st.regions + st.len_b = st.index_b)
    (walkSteps alignments) (gaInit (buildARegions alignments))
    (by simp [gaInit, sumLens]) (fun s a _ h => gaStep_sum_invariant _ s a h)

theorem foldl_gaStep_index_b (alleles : List Allele) (l : List (Nat × Piece))
    (st : GAState) :
    (l.foldl (gaStep alleles) st).index_b =
      st.index_b + (l.map (fun ip => ip.2.step_b)).sum := by
  induction l generalizing st with
  | nil => simp
  | cons a t ih =>
      rw [List.foldl_cons, ih, gaStep_index_b]
      simp
      omega

theorem gaFinal_index_b (alignments : List (Allele × Alignment)) :
    (gaFinal alignments).index_b = totalQueryLength alignments := by
  rw [gaFinal, foldl_gaStep_index_b, totalQueryLength]
  simp [gaInit]

/-- A single segment whose reference is fully consumed before the path ends:
the trailing query-only insertion happens after the last boundary was popped. -/
def exC2 : List (Allele × Alignment) :=
  [(⟨[("FR1", 1)], []⟩,
    ⟨0, 0, [⟨0, 0, MatchType.FullIdentity, 1, 1⟩, ⟨0, 0, MatchType.Gap, 0, 1⟩]⟩)]

/-- C2 counterexample: on `exC2` the summed region lengths are 1 while the
query's total aligned length is 2 — the query residue consumed after the
boundary queue was exhausted is dropped, refuting the claim as stated. -/
theorem C2_counterexample :
    sumLens (generate_annotations exC2).1 = 1 ∧ totalQueryLength exC2 = 2 ∧
    sumLens (generate_annotations exC2).1 ≠ totalQueryLength exC2 := by
  refine ⟨by decide, by decide, by decide⟩

/-- C2 (amended): the summed lengths of the projector's output region list,
plus the residual unattributed query length that is dropped exactly when the
boundary queue is exhausted before the walk ends, equal the query's total
aligned length (all paths' `step_b` plus the synthesized lead-in `start_b`
contributions). With an empty residual term this is the claim as stated. -/
theorem C2_length_conservation_amended (alignments : List (Allele × Alignment)) :
    sumLens (generate_annotations alignments).1 +
      (if (gaFinal alignments).a_regions = [] then (gaFinal alignments).len_b else 0) =
      totalQueryLength alignments := by
  have hinv := gaFinal_sum_invariant alignments
  have hib := gaFinal_index_b alignments
  rcases hq : (gaFinal alignments).a_regions.getLast? with _ | rl
  · have hnil : (gaFinal alignments).a_regions = [] := List.getLast?_eq_none_iff.mp hq
    simp only [generate_annotations, finalRegions, hq]
    rw [if_pos hnil]
    omega
  · have hnenil : (gaFinal alignments).a_regions ≠ [] := by
      intro h0; rw [h0] at hq; simp at hq
    simp only [generate_annotations, finalRegions, hq, sumLens_mergeOrAppend]
    rw [if_neg hnenil]
    omega

/- ## Adjacent-duplicate freedom of the region list (C5) -/

theorem chain'_ne_mergeOrAppend {l : List (String × Nat)} {region : String} {lb : Nat}
    (h : List.Chain' (fun x y => x.1 ≠ y.1) l) :
    List.Chain' (fun x y => x.1 ≠ y.1) (mergeOrAppend l region lb) := by
  rcases List.eq_nil_or_concat l with rfl | ⟨l', x, rfl⟩
  · simp [mergeOrAppend]
  · simp only [List.concat_eq_append] at h
    simp only [List.concat_eq_append, mergeOrAppend, List.getLast?_concat,
      List.dropLast_concat]
    rw [List.chain'_append] at h
    obtain ⟨h1, -, h3⟩ := h
    split
    · rw [List.chain'_append]
      refine ⟨h1, List.chain'_singleton _, ?_⟩
      intro p hp q hq
      simp only [List.head?_cons, Option.mem_def, Option.some.injEq] at hq
      subst hq
      exact h3 p hp x (by simp)
    · rename_i hne
      rw [List.chain'_append]
      refine ⟨by rw [List.chain'_append]; exact ⟨h1, List.chain'_singleton _, h3⟩,
        List.chain'_singleton _, ?_⟩
      intro p hp q hq
      simp only [List.getLast?_concat, Option.mem_def, Option.some.injEq] at hp
      simp only [List.head?_cons, Option.mem_def, Option.some.injEq] at hq
      subst hp
      subst hq
      exact hne

theorem gaStep_chain (alleles : List Allele) (st : GAState) (ip : Nat × Piece)
    (h : List.Chain' (fun x y => x.1 ≠ y.1) st.regions) :
    List.Chain' (fun x y => x.1 ≠ y.1) (gaStep alleles st ip).regions := by
  simp only [gaStep]
  repeat' split
  all_goals first
    | exact h
    | exact chain'_ne_mergeOrAppend h

/-- C5: in the projector's output region list no two consecutive entries carry
the same region name — a boundary resolving to the name of the last emitted
region (also across a segment join, the walk is segment-agnostic here) extends
that entry instead of appending a new one, and so does the post-walk flush. -/
theorem C5_no_adjacent_duplicate_regions (alignments : List (Allele × Alignment)) :
    List.Chain' (fun x y => x.1 ≠ y.1) (generate_annotations alignments).1 := by
  have hfold : List.Chain' (fun x y => x.1 ≠ y.1) (gaFinal alignments).regions := by
    unfold gaFinal
    exact foldl_induction _
      (fun st => List.Chain' (fun x y => x.1 ≠ y.1) st.regions)
      (walkSteps alignments) (gaInit (buildARegions alignments))
      (by simp [gaInit]) (fun s a _ h => gaStep_chain _ s a h)
  rcases hq : (gaFinal alignments).a_regions.getLast? with _ | rl
  · simpa only [generate_annotations, finalRegions, hq] using hfold
  · simpa only [generate_annotations, finalRegions, hq] using
      chain'_ne_mergeOrAppend hfold

/- ## One boundary per step (C3) -/

/-- A single step spanning two boundaries at once. -/
def exC3 : List (Allele × Alignment) :=
  [(⟨[("FR1", 1), ("CDR1", 1)], []⟩,
    ⟨0, 0, [⟨0, 0, MatchType.FullIdentity, 2, 2⟩]⟩)]

/-- C3 counterexample: the walk of `exC3` is a single step spanning both
boundaries; after it has been processed the boundary `(CDR1, 1)` is still
queued even though its threshold 1 ≤ the remaining `len_a` = 1 — the drain
is an `if`, not a `while`, so one step pops at most one boundary. -/
theorem C3_counterexample :
    walkSteps exC3 = [(0, ⟨0, 0, MatchType.FullIdentity, 2, 2⟩)] ∧
    (gaFinal exC3).a_regions = [(some "CDR1", 1)] ∧
    (gaFinal exC3).len_a = 1 := by
  refine ⟨by decide, by decide, by decide⟩

/-- C3 (amended): each step processes at most one queued boundary. When the
boundary at the queue's popping end has threshold ≤ the updated `len_a`, that
single boundary is resolved (queued name, else previous region, else
"Unknown"), merged-or-appended with the accumulated `len_b`, popped, its
threshold subtracted from `len_a` carrying the remainder, and `len_b` reset
to 0 — but exactly one boundary is popped per step, so a further queued
boundary with threshold ≤ `len_a` can remain after the step. -/
theorem C3_single_pop_amended (alleles : List Allele) (st : GAState)
    (ip : Nat × Piece) (rl : Option String × Nat)
    (hq : st.a_regions.getLast? = some rl)
    (hle : rl.2 ≤ st.len_a + ip.2.step_a) :
    (gaStep alleles st ip).a_regions = st.a_regions.dropLast ∧
    (gaStep alleles st ip).regions =
      mergeOrAppend st.regions (resolveRegion rl.1 st.last_region)
        (st.len_b + ip.2.step_b) ∧
    (gaStep alleles st ip).len_a = st.len_a + ip.2.step_a - rl.2 ∧
    (gaStep alleles st ip).len_b = 0 ∧
    (gaStep alleles st ip).last_region = rl.1 ∧
    st.a_regions.length = (gaStep alleles st ip).a_regions.length + 1 := by
  have hne : st.a_regions ≠ [] := by
    intro h0; rw [h0] at hq; simp at hq
  have hlen := List.length_pos.mpr hne
  simp only [gaStep, hq, if_pos hle]
  split
  all_goals refine ⟨rfl, rfl, rfl, rfl, rfl, ?_⟩
  all_goals simp only [List.length_dropLast]
  all_goals omega

/-- The state of the spec-side annotation walk (spec section 4.1, steps 2-3). -/
structure SpecWalk where
  index_a : Nat
  index_b : Nat
  offset_a : Nat
  last_index : Option Nat
  acc : List (String × Nat)
deriving DecidableEq, Repr

/-- Spec-side comparator for claim C4, following the spec's words: on moving
to a new segment snapshot `offset = index_a`; advance `index_a`/`index_b` by
the step; then, only for steps whose `match_type` is `FullIdentity` or
`IdentityMassMismatch`, if the segment-local position `index_a - offset +
step_a` matches an allele point, append `(point, index_b + step_b)`; gapped
or mismatched steps never propagate. -/
def specAnnotStep (alleles : List Allele) (st : SpecWalk) (ip : Nat × Piece) :
    SpecWalk :=
  let offset_a := if st.last_index ≠ some ip.1 then st.index_a else st.offset_a
  let index_a := st.index_a + ip.2.step_a
  let index_b := st.index_b + ip.2.step_b
  let acc :=
    if ip.2.match_type = MatchType.FullIdentity ∨
        ip.2.match_type = MatchType.IdentityMassMismatch then
      st.acc ++
        ((alleles.getD ip.1 ⟨[], []⟩).annotations.filterMap
          (fun x => if index_a - offset_a + ip.2.step_a = x.2
                    then some (x.1, index_b + ip.2.step_b) else none))
    else st.acc
  ⟨index_a, index_b, offset_a, some ip.1, acc⟩

/-- The spec-side annotation list over the same effective walk. -/
def specAnnotationList (alignments : List (Allele × Alignment)) :
    List (String × Nat) :=
  ((walkSteps alignments).foldl (specAnnotStep (alignments.map Prod.fst))
    ⟨0, 0, 0, none, []⟩).acc

theorem gaStep_refines_specAnnotStep (alleles : List Allele) (st : GAState)
    (sw : SpecWalk) (ip : Nat × Piece)
    (h1 : st.index_a = sw.index_a) (h2 : st.index_b = sw.index_b)
    (h3 : st.offset_a = sw.offset_a) (h4 : st.last_index = sw.last_index)
    (h5 : st.annotations = sw.acc) :
    (gaStep alleles st ip).index_a = (specAnnotStep alleles sw ip).index_a ∧
    (gaStep alleles st ip).index_b = (specAnnotStep alleles sw ip).index_b ∧
    (gaStep alleles st ip).offset_a = (specAnnotStep alleles sw ip).offset_a ∧
    (gaStep alleles st ip).last_index = (specAnnotStep alleles sw ip).last_index ∧
    (gaStep alleles st ip).annotations = (specAnnotStep alleles sw ip).acc := by
  refine ⟨?_, ?_, ?_, ?_, ?_⟩
  · rw [gaStep_index_a, h1]; rfl
  · rw [gaStep_index_b, h2]; rfl
  · rw [gaStep_offset_a, h1, h3, h4]; rfl
  · rw [gaStep_last_index]; rfl
  · rw [gaStep_annotations, h1, h2, h3, h4, h5]
    rfl

/-- C4: the projector's annotation output coincides with the spec-described
walk `specAnnotationList`, which emits only for `FullIdentity` and
`IdentityMassMismatch` steps whose segment-local reference position
`index_a - offset + step_a` matches an allele point, at query position
`index_b + step_b`; a `Mismatch` or pure gap step therefore never produces
an entry, regardless of the position it reaches. -/
theorem C4_identity_gate_refinement (alignments : List (Allele × Alignment)) :
    (generate_annotations alignments).2 = specAnnotationList alignments := by
  have key := foldl_rel (gaStep (alignments.map Prod.fst))
    (specAnnotStep (alignments.map Prod.fst))
    (fun st sw => st.index_a = sw.index_a ∧ st.index_b = sw.index_b ∧
      st.offset_a = sw.offset_a ∧ st.last_index = sw.last_index ∧
      st.annotations = sw.acc)
    (fun s t a h => gaStep_refines_specAnnotStep _ s t a h.1 h.2.1 h.2.2.1
      h.2.2.2.1 h.2.2.2.2)
    (walkSteps alignments) (gaInit (buildARegions alignments)) ⟨0, 0, 0, none, []⟩
    (by simp [gaInit])
  exact key.2.2.2.2

/- ## Annotation ordering (C6) -/

/-- A segment whose synthesized lead-in spans five query residues: the lead-in
emits an annotation two lead-ins deep into the query, after which the first
real identity step emits one at a smaller query position. -/
def exC6 : List (Allele × Alignment) :=
  [(⟨[("FR1", 10)], [("Conserved", 2), ("Conserved", 3)]⟩,
    ⟨1, 5, [⟨0, 0, MatchType.FullIdentity, 1, 1⟩]⟩)]

/-- C6 counterexample: on `exC6` the projector emits query positions 10 then
7 — the annotation list is not non-decreasing in query position. -/
theorem C6_counterexample :
    (generate_annotations exC6).2 = [("Conserved", 10), ("Conserved", 7)] ∧
    ¬ List.Sorted (fun a b => a ≤ b) ((generate_annotations exC6).2.map Prod.snd) := by
  refine ⟨by decide, ?_⟩
  have h : (generate_annotations exC6).2.map Prod.snd = [10, 7] := by decide
  rw [h]
  decide

theorem snd_of_emitted {l : List (String × Nat)} {c pos q : Nat}
    (hq : q ∈ (l.filterMap
        (fun x => if c = x.2 then some (x.1, pos) else none)).map Prod.snd) :
    q = pos := by
  rcases List.mem_map.mp hq with ⟨y, hy, rfl⟩
  rcases List.mem_filterMap.mp hy with ⟨x, -, hx⟩
  by_cases hc : c = x.2
  · rw [if_pos hc] at hx
    cases hx
    rfl
  · rw [if_neg hc] at hx
    cases hx

theorem pairwise_le_const {m : List Nat} {c : Nat} (h : ∀ x ∈ m, x = c) :
    List.Pairwise (fun a b => a ≤ b) m := by
  induction m with
  | nil => simp
  | cons x t ih =>
      simp only [List.pairwise_cons]
      refine ⟨fun y hy => ?_, ih (fun y hy => h y (by simp [hy]))⟩
      rw [h x (by simp), h y (by simp [hy])]

theorem gaStep_sorted_invariant (alleles : List Allele) (st : GAState)
    (ip : Nat × Piece)
    (hb : (ip.2.match_type = MatchType.FullIdentity ∨
        ip.2.match_type = MatchType.IdentityMassMismatch) → ip.2.step_b = 1)
    (h : List.Pairwise (fun a b => a ≤ b) (st.annotations.map Prod.snd) ∧
      ∀ q ∈ st.annotations.map Prod.snd, q ≤ st.index_b + 1) :
    List.Pairwise (fun a b => a ≤ b)
        ((gaStep alleles st ip).annotations.map Prod.snd) ∧
      ∀ q ∈ (gaStep alleles st ip).annotations.map Prod.snd,
        q ≤ (gaStep alleles st ip).index_b + 1 := by
  obtain ⟨hp, hbd⟩ := h
  rw [gaStep_annotations, gaStep_index_b]
  split
  · rename_i hgate
    have hs1 : ip.2.step_b = 1 := hb hgate
    rw [List.map_append, List.pairwise_append]
    have hemit : ∀ q ∈ (((alleles.getD ip.1 ⟨[], []⟩).annotations.filterMap
        (fun x => if st.index_a + ip.2.step_a -
              (if st.last_index ≠ some ip.1 then st.index_a else st.offset_a)
              + ip.2.step_a = x.2
          then some (x.1, st.index_b + ip.2.step_b + ip.2.step_b)
          else none)).map Prod.snd),
        q = st.index_b + ip.2.step_b + ip.2.step_b :=
      fun q hq => snd_of_emitted hq
    refine ⟨⟨hp, pairwise_le_const hemit, ?_⟩, ?_⟩
    · intro a ha b hbm
      rw [hemit b hbm, hs1]
      have := hbd a ha
      omega
    · intro q hq
      rw [List.mem_append] at hq
      rcases hq with hq | hq
      · have := hbd q hq
        omega
      · rw [hemit q hq, hs1]
  · refine ⟨hp, fun q hq => ?_⟩
    have := hbd q hq
    omega

/-- C6 (amended): the projector's annotation query positions are
non-decreasing in emission order provided every identity-gated step of the
effective walk — including any synthesized lead-in, which the gate accepts —
consumes exactly one query residue (`step_b = 1`, the shape the aligner
produces for residue matches). A lead-in with `start_b > 1` that emits can
place its annotation past a later one: see `C6_counterexample`. -/
theorem C6_sorted_amended (alignments : List (Allele × Alignment))
    (h : ∀ ip ∈ walkSteps alignments,
      (ip.2.match_type = MatchType.FullIdentity ∨
        ip.2.match_type = MatchType.IdentityMassMismatch) → ip.2.step_b = 1) :
    List.Sorted (fun a b => a ≤ b)
      ((generate_annotations alignments).2.map Prod.snd) := by
  have key : List.Pairwise (fun a b => a ≤ b)
      ((gaFinal alignments).annotations.map Prod.snd) ∧
      ∀ q ∈ (gaFinal alignments).annotations.map Prod.snd,
        q ≤ (gaFinal alignments).index_b + 1 := by
    unfold gaFinal
    exact foldl_induction _
      (fun st => List.Pairwise (fun a b => a ≤ b) (st.annotations.map Prod.snd) ∧
        ∀ q ∈ st.annotations.map Prod.snd, q ≤ st.index_b + 1)
      (walkSteps alignments) (gaInit (buildARegions alignments))
      (by simp [gaInit])
      (fun s a ha hP => gaStep_sorted_invariant _ s a (h a ha) hP)
  exact key.1

theorem C6_sorted_witness :
    (∀ ip ∈ walkSteps exC3,
      (ip.2.match_type = MatchType.FullIdentity ∨
        ip.2.match_type = MatchType.IdentityMassMismatch) → ip.2.step_b = 1) = False ∧
    (∀ ip ∈ walkSteps exC2,
      (ip.2.match_type = MatchType.FullIdentity ∨
        ip.2.match_type = MatchType.IdentityMassMismatch) → ip.2.step_b = 1) ∧
    List.Sorted (fun a b => a ≤ b)
      ((generate_annotations exC2).2.map Prod.snd) :=
  ⟨by decide, by decide, C6_sorted_amended exC2 (by decide)⟩

/- ## The synthesized lead-in step (C9) -/

/-- A segment with `start_a = 1`, `start_b = 2` and a point at reference
position 1 = `start_a`: the claim predicts it is emitted at the lead-in's
end, but the walk's double-counting formula looks for position
`2 * start_a` instead, so nothing is emitted at all. -/
def exC9 : List (Allele × Alignment) :=
  [(⟨[("FR1", 10)], [("Conserved", 1)]⟩,
    ⟨1, 2, [⟨0, 0, MatchType.FullIdentity, 1, 1⟩]⟩)]

/-- C9 counterexample: on `exC9` (annotation at segment-local reference
position `start_a = 1`, lead-in present since `start_b = 2 ≠ 0`) the
projector emits no annotation at all, refuting the claim that an annotation
at position `start_a` is emitted at the query position where the lead-in
ends. -/
theorem C9_counterexample :
    (generate_annotations exC9).2 = [] ∧
    exC9.map (fun aal => aal.2.start_a) = [1] ∧
    exC9.map (fun aal => aal.2.start_b) = [2] ∧
    exC9.map (fun aal => aal.1.annotations) = [[("Conserved", 1)]] := by
  refine ⟨by decide, by decide, by decide, by decide⟩

/-- C9 (amended): the synthesized lead-in step is tagged `FullIdentity` with
`step_a = start_a`, so it passes the identity gate; processing it as the
first step of its segment emits exactly the allele points at segment-local
reference position `2 * start_a` (not `start_a`), each at query position
`index_b + 2 * start_b` — `start_b` beyond where the lead-in ends — even
though those residues were never matched by the aligner. -/
theorem C9_lead_in_amended (alleles : List Allele) (st : GAState) (i : Nat)
    (al : Alignment) (h : st.last_index ≠ some i) :
    (leadPiece al).match_type = MatchType.FullIdentity ∧
    (leadPiece al).step_a = al.start_a ∧
    (leadPiece al).step_b = al.start_b ∧
    (gaStep alleles st (i, leadPiece al)).annotations =
      st.annotations ++
        ((alleles.getD i ⟨[], []⟩).annotations.filterMap
          (fun x => if al.start_a + al.start_a = x.2
                    then some (x.1, st.index_b + al.start_b + al.start_b)
                    else none)) := by
  refine ⟨rfl, rfl, rfl, ?_⟩
  rw [gaStep_annotations]
  simp only [leadPiece, if_pos h, true_or, if_true]
  congr 1
  apply List.filterMap_congr
  intro x _
  congr 2
  omega

theorem C9_lead_in_witness :
    ((gaInit []).last_index ≠ some 0) ∧
    (gaStep [⟨[("FR1", 10)], [("Conserved", 2)]⟩] (gaInit [])
        (0, leadPiece ⟨1, 2, []⟩)).annotations = [("Conserved", 4)] := by
  refine ⟨by decide, ?_⟩
  have key := (C9_lead_in_amended [⟨[("FR1", 10)], [("Conserved", 2)]⟩]
    (gaInit []) 0 ⟨1, 2, []⟩ (by decide)).2.2.2
  rw [key]
  decide

theorem C3_single_pop_witness :
    ((gaInit [((some "FR1" : Option String), 1)]).a_regions.getLast? =
      some (some "FR1", 1)) ∧
    (gaStep [] (gaInit [((some "FR1" : Option String), 1)])
        (0, ⟨0, 0, MatchType.FullIdentity, 1, 1⟩)).len_b = 0 :=
  ⟨rfl,
    (C3_single_pop_amended [] (gaInit [((some "FR1" : Option String), 1)])
      (0, ⟨0, 0, MatchType.FullIdentity, 1, 1⟩) (some "FR1", 1) rfl
      (by decide)).2.2.2.1⟩

/- ## The renderer's ruler header closure (`render.rs` lines 202-249) -/

/-- The region label text pushed into `number_tail` (`render.rs` lines
218-231): the region name followed by a space, reversed for pop-per-column
emission; when no room is left on the end and the remaining length equals
the full width, compressed to its last-and-first characters. -/
def regionLabelText (rname : String) (len full_width : Nat) (room_on_end : Bool) :
    List Char :=
  let t := (rname.toList ++ [' ']).reverse
  if ¬room_on_end = true ∧ len = full_width then
    if len ≤ 1 then [' ', t.getD 1 ' ']
    else if len ≤ 4 then [' ', t.getD 1 ' ', t.getLastD ' ']
    else t
  else t

/-- The numeric tick text (`render.rs` lines 237-244): the position padded to
the full width and reversed. -/
def numberTickText (pos full_width : Nat) : List Char :=
  (List.replicate (full_width - ((Nat.repr pos).length - 1)) ' '
    ++ (Nat.repr pos).toList).reverse

/-- The `header` closure of `show_alignment_inner` (`render.rs` lines
202-249), with the duck-typed `get_region` accessor and the captured
`last_region` / `start_context_override` passed explicitly; strings are
modelled as `List Char` (`pop` takes from the end). Returns the updated
`(number_tail, is_number, number_shift_back, last_region)`. -/
def headerStep (get_region : Nat → Option (String × Bool)) (sco : Option String)
    (a len full_width step : Nat) (number_tail : List Char) (is_number : Bool)
    (number_shift_back : Nat) (room_on_end skip_first : Bool)
    (last_region : Option String) : List Char × Bool × Nat × Option String :=
  let r1 : List Char × Bool × Option String :=
    match get_region (a + step) with
    | some region =>
        if region.2 = true ∧ number_tail = [] ∧ last_region ≠ some region.1 ∧
            ¬(skip_first = true ∧ last_region = sco) then
          (regionLabelText region.1 len full_width room_on_end, false, some region.1)
        else (number_tail, is_number, last_region)
    | none => (number_tail, is_number, last_region)
  if (a + number_shift_back) % 10 = 0 ∧ r1.1 = [] then
    (numberTickText (a + number_shift_back) full_width, true,
      (Nat.repr (a + 10 + number_shift_back)).length, r1.2.2)
  else (r1.1, r1.2.1, number_shift_back, r1.2.2)

theorem regionLabelText_ne_nil (rname : String) (len full_width : Nat)
    (room_on_end : Bool) :
    regionLabelText rname len full_width room_on_end ≠ [] := by
  simp only [regionLabelText]
  repeat' split
  all_goals simp

/-- C7: at a column where a region label becomes due (boundary reached, no
text pending, region not yet emitted, not skipped) and which simultaneously
satisfies the numeric-tick condition `(a + number_shift_back) % 10 = 0`, the
header emits the region label, reports `is_number = false`, and leaves
`number_shift_back` untouched: the numeric tick is only started when no
label text is pending, and the label just became pending. -/
theorem C7_label_priority (get_region : Nat → Option (String × Bool))
    (sco : Option String) (a len full_width step : Nat) (is_number : Bool)
    (number_shift_back : Nat) (room_on_end skip_first : Bool)
    (last_region : Option String) (rname : String)
    (hr : get_region (a + step) = some (rname, true))
    (hlr : last_region ≠ some rname)
    (hskip : ¬(skip_first = true ∧ last_region = sco))
    (htick : (a + number_shift_back) % 10 = 0) :
    headerStep get_region sco a len full_width step [] is_number
        number_shift_back room_on_end skip_first last_region =
      (regionLabelText rname len full_width room_on_end, false,
        number_shift_back, some rname) := by
  have hcond : (True ∧ True ∧ last_region ≠ some rname ∧
      ¬(skip_first = true ∧ last_region = sco)) := ⟨trivial, trivial, hlr, hskip⟩
  simp only [headerStep, hr]
  rw [if_pos hcond]
  rw [if_neg]
  intro hcon
  exact regionLabelText_ne_nil rname len full_width room_on_end hcon.2

theorem C7_label_priority_witness :
    ((fun _ : Nat => some ("CDR3", true)) (9 + 0) = some ("CDR3", true)) ∧
    ((9 + 1) % 10 = 0) ∧
    headerStep (fun _ => some ("CDR3", true)) none 9 3 3 0 [] false 1
        false false none =
      (regionLabelText "CDR3" 3 3 false, false, 1, some "CDR3") :=
  ⟨rfl, by decide,
    C7_label_priority (fun _ => some ("CDR3", true)) none 9 3 3 0 false 1
      false false none "CDR3" rfl (by decide) (by decide) (by decide)⟩

/- ## The line-wrapped writer `CombinedLines` (`render.rs` lines 567-705) -/

/-- One printed block of `CombinedLines::flush` (`render.rs` lines 664-704):
which of the four tracks are printed (the ruler line unconditionally unless
headers are omitted, the other three only when their content flag is set and
`only_display_a` permits) and how many columns the block spans. ANSI
styling, the trailing padding and the name captions (`a_names`, `b_name`)
are abstracted away: they affect only the text after each track, never
whether a track is printed or its column count. -/
structure Block where
  ruler : Bool
  a_line : Bool
  b_line : Bool
  marker_line : Bool
  width : Nat
deriving DecidableEq, Repr

/-- The `CombinedLines` writer state (`render.rs` lines 567-607), with the
printed blocks accumulated in `output`. -/
structure CombinedLines where
  numbers : List Char
  a : List Char
  a_content : Bool
  b : List Char
  b_content : Bool
  marker : List Char
  marker_content : Bool
  chars : Nat
  lines : Nat
  line_width : Nat
  only_display_a : Bool
  omit_headers : Bool
  output : List Block
deriving DecidableEq, Repr

/-- `CombinedLines::new` (`render.rs` lines 585-607). -/
def CombinedLines.new (line_width : Nat) (only_display_a omit_headers : Bool) :
    CombinedLines :=
  ⟨[], [], false, [], false, [], false, 0, 0, line_width, only_display_a,
    omit_headers, []⟩

/-- `CombinedLines::flush` (`render.rs` lines 664-704): record the printed
block, then reset all buffers, content flags and the column counter. -/
def CombinedLines.flush (st : CombinedLines) : CombinedLines :=
  { st with
    output := st.output ++
      [⟨!st.omit_headers, st.a_content, !st.only_display_a && st.b_content,
        !st.only_display_a && st.marker_content, st.chars⟩],
    numbers := [], a := [], b := [], marker := [],
    a_content := false, b_content := false, marker_content := false,
    chars := 0, lines := st.lines + 1 }

/-- `CombinedLines::add_column` (`render.rs` lines 609-662): append one
character to each track, update the content flags by non-whitespace, count
the column, and flush automatically when the count reaches a multiple of
`line_width`. -/
def CombinedLines.add_column (st : CombinedLines) (n a b c : Char) :
    CombinedLines :=
  let st1 : CombinedLines :=
    { st with
      numbers := st.numbers ++ [n],
      a := st.a ++ [a],
      a_content := st.a_content || !a.isWhitespace,
      b := st.b ++ [b],
      b_content := st.b_content || !b.isWhitespace,
      marker := st.marker ++ [c],
      marker_content := st.marker_content || !c.isWhitespace,
      chars := st.chars + 1 }
  if st1.chars % st1.line_width = 0 then st1.flush else st1

/-- Feeding a sequence of `(ruler, reference, query, marker)` column
characters through `add_column`, as the per-column rendering loop does. -/
def feedColumns (st : CombinedLines)
    (cols : List (Char × Char × Char × Char)) : CombinedLines :=
  cols.foldl (fun s x => s.add_column x.1 x.2.1 x.2.2.1 x.2.2.2) st

/-- The widths of the blocks auto-flushed while feeding `n` columns into a
writer of width `w` currently holding `c` buffered columns. -/
def blockWidths (w : Nat) : Nat → Nat → List Nat
  | _, 0 => []
  | c, Nat.succ n =>
      if (c + 1) % w = 0 then (c + 1) :: blockWidths w 0 n
      else blockWidths w (c + 1) n

/-- The buffered column count after feeding `n` columns. -/
def charsAfter (w : Nat) : Nat → Nat → Nat
  | c, 0 => c
  | c, Nat.succ n =>
      if (c + 1) % w = 0 then charsAfter w 0 n else charsAfter w (c + 1) n

theorem add_column_spec (st : CombinedLines) (n a b c : Char) :
    (st.add_column n a b c).output.map Block.width =
      st.output.map Block.width ++
        (if (st.chars + 1) % st.line_width = 0 then [st.chars + 1] else []) ∧
    (st.add_column n a b c).chars =
      (if (st.chars + 1) % st.line_width = 0 then 0 else st.chars + 1) ∧
    (st.add_column n a b c).line_width = st.line_width ∧
    (st.add_column n a b c).only_display_a = st.only_display_a ∧
    (st.add_column n a b c).omit_headers = st.omit_headers := by
  simp only [CombinedLines.add_column, CombinedLines.flush]
  split <;> rename_i hmod <;> simp_all

theorem feedColumns_spec (cols : List (Char × Char × Char × Char))
    (st : CombinedLines) :
    (feedColumns st cols).output.map Block.width =
      st.output.map Block.width ++
        blockWidths st.line_width st.chars cols.length ∧
    (feedColumns st cols).chars = charsAfter st.line_width st.chars cols.length ∧
    (feedColumns st cols).line_width = st.line_width ∧
    (feedColumns st cols).only_display_a = st.only_display_a ∧
    (feedColumns st cols).omit_headers = st.omit_headers := by
  induction cols generalizing st with
  | nil => simp [feedColumns, blockWidths, charsAfter]
  | cons x t ih =>
      have hstep : feedColumns st (x :: t) =
          feedColumns (st.add_column x.1 x.2.1 x.2.2.1 x.2.2.2) t := rfl
      obtain ⟨ha1, ha2, ha3, ha4, ha5⟩ := add_column_spec st x.1 x.2.1 x.2.2.1 x.2.2.2
      obtain ⟨hf1, hf2, hf3, hf4, hf5⟩ :=
        ih (st.add_column x.1 x.2.1 x.2.2.1 x.2.2.2)
      rw [hstep]
      refine ⟨?_, ?_, by rw [hf3, ha3], by rw [hf4, ha4], by rw [hf5, ha5]⟩
      · rw [hf1, ha1, ha3, ha2, List.length_cons]
        by_cases hmod : (st.chars + 1) % st.line_width = 0
        · simp [blockWidths, hmod]
        · simp [blockWidths, hmod]
      · rw [hf2, ha3, ha2, List.length_cons]
        by_cases hmod : (st.chars + 1) % st.line_width = 0
        · simp [charsAfter, hmod]
        · simp [charsAfter, hmod]

/-- C8: feeding any 120 columns into a fresh writer with `line_width = 50`
and then flushing explicitly produces exactly 3 wrapped blocks, of 50, 50
and 20 columns: `add_column` auto-flushes each time the column count reaches
a multiple of 50, and the trailing partial 20-column block is flushed
unconditionally by the final explicit flush. -/
theorem C8_wrapping (oda oh : Bool) (cols : List (Char × Char × Char × Char))
    (hlen : cols.length = 120) :
    ((feedColumns (CombinedLines.new 50 oda oh) cols).flush).output.map
        Block.width = [50, 50, 20] := by
  obtain ⟨hw, hc, -, -, -⟩ := feedColumns_spec cols (CombinedLines.new 50 oda oh)
  have hflush : ((feedColumns (CombinedLines.new 50 oda oh) cols).flush).output.map
      Block.width =
      (feedColumns (CombinedLines.new 50 oda oh) cols).output.map Block.width ++
        [(feedColumns (CombinedLines.new 50 oda oh) cols).chars] := by
    simp [CombinedLines.flush]
  rw [hflush, hw, hc, hlen]
  have h1 : blockWidths 50 0 120 = [50, 50] := by decide
  have h2 : charsAfter 50 0 120 = 20 := by decide
  simp only [CombinedLines.new] at h1 h2 ⊢
  rw [h1, h2]
  rfl

theorem C8_wrapping_witness :
    (List.replicate 120 ((' ', ' ', ' ', ' ') :
        Char × Char × Char × Char)).length = 120 ∧
    ((feedColumns (CombinedLines.new 50 false false)
        (List.replicate 120 ((' ', ' ', ' ', ' ') :
          Char × Char × Char × Char))).flush).output.map Block.width =
      [50, 50, 20] :=
  ⟨by simp,
    C8_wrapping false false
      (List.replicate 120 ((' ', ' ', ' ', ' ') : Char × Char × Char × Char))
      (by simp)⟩

theorem feedColumns_flags (cols : List (Char × Char × Char × Char))
    (st : CombinedLines) (hne : cols ≠ [])
    (hchars : (feedColumns st cols).chars = 0) :
    (feedColumns st cols).a_content = false ∧
    (feedColumns st cols).b_content = false ∧
    (feedColumns st cols).marker_content = false := by
  induction cols generalizing st with
  | nil => cases hne rfl
  | cons x t ih =>
      cases t with
      | nil =>
          have h1 : feedColumns st [x] = st.add_column x.1 x.2.1 x.2.2.1 x.2.2.2 :=
            rfl
          rw [h1] at hchars ⊢
          by_cases hmod : (st.chars + 1) % st.line_width = 0
          · simp [CombinedLines.add_column, CombinedLines.flush, hmod]
          · exfalso
            simp [CombinedLines.add_column, hmod] at hchars
      | cons y u =>
          exact ih (st.add_column x.1 x.2.1 x.2.2.1 x.2.2.2) (by simp) hchars

theorem charsAfter_eq (w : Nat) (hw : 0 < w) (n : Nat) :
    ∀ c, c < w → charsAfter w c n = (c + n) % w := by
  induction n with
  | zero =>
      intro c hc
      simp [charsAfter, Nat.mod_eq_of_lt hc]
  | succ n ih =>
      intro c hc
      simp only [charsAfter]
      by_cases hmod : (c + 1) % w = 0
      · rw [if_pos hmod, ih 0 hw]
        have h2 : (c + (n + 1)) % w = ((c + 1) + n) % w := by
          congr 1
          omega
        rw [h2, Nat.add_mod (c + 1) n w, hmod, Nat.zero_add, Nat.zero_add,
          Nat.mod_mod_of_dvd n (dvd_refl w)]
      · have hlt : c + 1 < w := by
          rcases Nat.lt_or_ge (c + 1) w with h | h
          · exact h
          · have hcw : c + 1 = w := by omega
            rw [hcw, Nat.mod_self] at hmod
            exact absurd rfl hmod
        rw [if_neg hmod, ih (c + 1) hlt]
        congr 1
        omega

/-- C10: when the number of rendered columns is a positive exact multiple of
`line_width`, the last automatic flush inside `add_column` empties all
buffers and content flags, and the subsequent unconditional flush issued by
the caller records one additional, zero-column block whose ruler line is
printed (unless headers are omitted) while the reference, query and marker
tracks are all suppressed because their content flags are false. -/
theorem C10_trailing_empty_ruler (w n : Nat) (oda oh : Bool)
    (cols : List (Char × Char × Char × Char)) (hw : 0 < w) (hn : 0 < n)
    (hmod : n % w = 0) (hlen : cols.length = n) :
    ((feedColumns (CombinedLines.new w oda oh) cols).flush).output.getLast? =
      some ⟨!oh, false, false, false, 0⟩ := by
  obtain ⟨-, hc, -, hoda, hoh⟩ := feedColumns_spec cols (CombinedLines.new w oda oh)
  have hnew1 : (CombinedLines.new w oda oh).line_width = w := rfl
  have hnew2 : (CombinedLines.new w oda oh).chars = 0 := rfl
  have hc0 : (feedColumns (CombinedLines.new w oda oh) cols).chars = 0 := by
    rw [hc, hnew1, hnew2, hlen, charsAfter_eq w hw n 0 hw, Nat.zero_add]
    exact hmod
  have hnnil : cols ≠ [] := by
    intro h0
    rw [h0] at hlen
    simp at hlen
    omega
  obtain ⟨hA, hB, hM⟩ := feedColumns_flags cols _ hnnil hc0
  simp only [CombinedLines.flush]
  rw [List.getLast?_concat]
  rw [hA, hB, hM, hc0]
  rw [hoh]
  simp [CombinedLines.new]

theorem C10_trailing_empty_ruler_witness :
    (0 : Nat) < 2 ∧ (0 : Nat) < 4 ∧ (4 : Nat) % 2 = 0 ∧
    ((feedColumns (CombinedLines.new 2 false false)
        (List.replicate 4 ((' ', ' ', ' ', ' ') :
          Char × Char × Char × Char))).flush).output.getLast? =
      some ⟨true, false, false, false, 0⟩ :=
  ⟨by decide, by decide, by decide, by
    have h := C10_trailing_empty_ruler 2 4 false false
      (List.replicate 4 ((' ', ' ', ' ', ' ') : Char × Char × Char × Char))
      (by decide) (by decide) (by decide) (by simp)
    simpa using h⟩

end AlignCli
